import Mathlib

/-!
Verification of the reviewer-data aggregation pipeline of the peer-review
visualization repository.

The embedding covers:
* `processReviewerData`, `getAvgLabelQuality`, `calculateReviewerLabelAverages`
  (graph_func module),
* the node-styling layer of `generateGraph` (graph_3labelFunc.js):
  completion rate, node size, per-mode color score,
* `calculateHwLabelFrequency` (hwLabelChart.js).

Modelling conventions:
* JavaScript numbers are modelled as `ℚ` (all arithmetic in the pipeline is
  exact on the inputs of interest; no rounding/NaN arithmetic occurs in the
  modelled paths except where noted).
* A JS field that may be `undefined` is an `Option`; `x || 0` is `Option.getD 0`
  (also sound for the value `0` itself, which JS maps to `0` as well).
* A non-numeric `Label` (where `parseFloat` yields `NaN`) is `none`;
  `parseFloat(x) || 0` is `Option.getD 0`; the `NaN` result of
  `calculateReviewerLabelAverages` for a reviewer without parseable labels is
  modelled as `none`.
* A `Round` field that is not an array is `none : Option (List Round)`.
* JS `String.prototype.trim` / `toUpperCase` are modelled executably on the
  character list of the string (`jsTrim` / `jsToUpper`).
* A JS `Map` / plain object used as a dictionary is an insertion-ordered
  association list (`AList`); `Map.set` on a fresh key appends, on an existing
  key updates in place (`upsertA`).
-/

namespace ReviewGraph

/-- Model of JS `String.prototype.trim()`: drop leading and trailing
whitespace characters. -/
def jsTrim (s : String) : String :=
  ⟨((s.data.dropWhile Char.isWhitespace).reverse.dropWhile Char.isWhitespace).reverse⟩

/-- Model of JS `String.prototype.toUpperCase()` (character-wise upper-casing). -/
def jsToUpper (s : String) : String :=
  ⟨s.data.map Char.toUpper⟩

/-- One review round, as it appears inside a record's `Round` array.
`Feedback` missing in the data is modelled as `""` (the code normalizes it via
`round.Feedback || ""` and via truthiness checks). The three label flags and
`Label` keep `undefined` as `none`. The optional `Time` / round-number fields
are never read by the aggregation code and are omitted. -/
structure Round where
  Feedback : String
  Relevance : Option ℚ
  Concreteness : Option ℚ
  Constructive : Option ℚ
  Label : Option ℚ
deriving DecidableEq

/-- One assignment record: a reviewer-author pairing with its rounds.
`Round = none` models a `Round` field that is not an array. -/
structure Assignment where
  Reviewer : String
  Author : String
  Round : Option (List Round)
deriving DecidableEq

/-- Insertion-ordered association list, the model of a JS `Map` (and of a plain
object used as a dictionary). -/
abbrev AList (β : Type) := List (String × β)

/-- Key lookup in an association list (`Map.get` / bracket access). -/
def lookupA {β : Type} : AList β → String → Option β
  | [], _ => none
  | (k, v) :: rest, key => if k = key then some v else lookupA rest key

/-- `Map.set`: update the value in place if the key exists, else append. -/
def upsertA {β : Type} : AList β → String → β → AList β
  | [], key, v => [(key, v)]
  | (k, w) :: rest, key, v =>
      if k = key then (k, v) :: rest else (k, w) :: upsertA rest key v

/-- The keys of an association list, in order. -/
def keysA {β : Type} (l : AList β) : List String := l.map Prod.fst

/-- The raw input: homework key ↦ list of assignment records. -/
abbrev RawData := AList (List Assignment)

/-- The per-reviewer label tallies accumulated by `processReviewerData`. -/
structure LabelCounts where
  relevance : ℚ
  concreteness : ℚ
  constructive : ℚ
deriving DecidableEq

/-- A reviewer node while folding records (before the final score pass). -/
structure NodeAcc where
  id : String
  totalRounds : ℕ
  meaningfulScore : ℚ
  feedbacks : List String
  labelCounts : LabelCounts
deriving DecidableEq

/-- The node initializer used on first sight of a reviewer id. -/
def initNode (reviewerId : String) : NodeAcc :=
  { id := reviewerId, totalRounds := 0, meaningfulScore := 0, feedbacks := [],
    labelCounts := { relevance := 0, concreteness := 0, constructive := 0 } }

/-- A finalized reviewer node, as returned by `processReviewerData`. -/
structure NodeFin where
  id : String
  totalRounds : ℕ
  meaningfulScore : ℚ
  feedbacks : List String
  labelCounts : LabelCounts
  isFeedbackEmpty : Bool
deriving DecidableEq

/-- One reviewer→author edge (`links` entry). The source field names are
`from` / `to`; `from` is a Lean keyword, hence `fromId` / `toId`. -/
structure Edge where
  fromId : String
  toId : String
  completedAll : Bool
  hwName : String
deriving DecidableEq

/-- The `{nodes, links}` result of `processReviewerData`. -/
structure GraphData where
  nodes : List NodeFin
  links : List Edge
deriving DecidableEq

/-- The per-round body of the `rounds.forEach` loop in `processReviewerData`:
push the trimmed feedback unconditionally; if it is non-empty, add the weighted
round score (weights 30/30/40) and the raw label flags. -/
def processRound (node : NodeAcc) (round : Round) : NodeAcc :=
  let feedback := jsTrim round.Feedback
  let node := { node with feedbacks := node.feedbacks ++ [feedback] }
  let relevance := round.Relevance.getD 0
  let concreteness := round.Concreteness.getD 0
  let constructive := round.Constructive.getD 0
  if feedback ≠ "" then
    { node with
      meaningfulScore := node.meaningfulScore +
        (relevance * 30 + concreteness * 30 + constructive * 40),
      labelCounts :=
        { relevance := node.labelCounts.relevance + relevance,
          concreteness := node.labelCounts.concreteness + concreteness,
          constructive := node.labelCounts.constructive + constructive } }
  else node

/-- The body of the `hwAssignments.forEach` loop of `processReviewerData`:
get-or-create the reviewer node, bump `totalRounds`, fold the rounds, store the
node back, and append one edge (`completedAll` iff at least 3 rounds). -/
def stepRecord (hwName : String) (st : AList NodeAcc × List Edge)
    (assignment : Assignment) : AList NodeAcc × List Edge :=
  let rounds := assignment.Round.getD []
  let node := (lookupA st.1 assignment.Reviewer).getD (initNode assignment.Reviewer)
  let node := { node with totalRounds := node.totalRounds + rounds.length }
  let node := rounds.foldl processRound node
  (upsertA st.1 assignment.Reviewer node,
   st.2 ++ [{ fromId := assignment.Reviewer, toId := assignment.Author,
              completedAll := decide (rounds.length ≥ 3), hwName := hwName }])

/-- The final score pass of `processReviewerData`: average the accumulated
weighted score over the non-empty-feedback rounds (0 if none), cap at 100, and
compute `isFeedbackEmpty`. -/
def finalizeNode (node : NodeAcc) : NodeFin :=
  let validRounds := (node.feedbacks.filter (· ≠ "")).length
  let avgScore : ℚ := if validRounds > 0 then node.meaningfulScore / validRounds else 0
  { id := node.id, totalRounds := node.totalRounds, feedbacks := node.feedbacks,
    labelCounts := node.labelCounts,
    meaningfulScore := min avgScore 100,
    isFeedbackEmpty := node.feedbacks.all (· = "") }

/-- The nested fold of `processReviewerData` over the selected homework keys
and their records (`rawData[hwName] || []`). -/
def nodesMapOf (rawData : RawData) (hwNames : List String) :
    AList NodeAcc × List Edge :=
  hwNames.foldl
    (fun st hwName => ((lookupA rawData hwName).getD []).foldl (stepRecord hwName) st)
    ([], [])

set_option linter.unusedVariables false in
/-- `processReviewerData(rawData, mode, hwNames)`. The `mode` parameter is
accepted but unused by the source (the per-mode filtering was removed there). -/
def processReviewerData (rawData : RawData) (mode : String)
    (hwNames : List String) : GraphData :=
  let st := nodesMapOf rawData hwNames
  { nodes := st.1.map (fun kv => finalizeNode kv.2), links := st.2 }

/-- The Assignment-level participation rate computed per node inside
`generateGraph` (graph_3labelFunc.js): completed / assigned, 0 when nothing is
assigned. -/
def completionRate (n : NodeFin) : ℚ :=
  let assignmentCount := n.feedbacks.length
  let completedAssignments := (n.feedbacks.filter (· ≠ "")).length
  if assignmentCount > 0 then (completedAssignments : ℚ) / assignmentCount else 0

/-- `sizeScale` of `generateGraph`: `15 + rate * 35`. -/
def sizeScale (rate : ℚ) : ℚ := 15 + rate * 35

/-- The `value` (visual size) assigned to a node by `generateGraph`. -/
def visNodeValue (n : NodeFin) : ℚ := sizeScale (completionRate n)

/-- The chart mode of `generateGraph`. -/
inductive GMode
  | all
  | relevance
  | concreteness
  | constructive
deriving DecidableEq

/-- The color score computed per node by `generateGraph`: in `all` mode the
mean of the three per-label rates, in a single-label mode that label's rate;
0 whenever the reviewer has no non-empty feedback. -/
def nodeScore (mode : GMode) (n : NodeFin) : ℚ :=
  let totalFeedbacks := (n.feedbacks.filter (· ≠ "")).length
  match mode with
  | .all =>
      if totalFeedbacks > 0 then
        let relevanceScore := n.labelCounts.relevance / totalFeedbacks
        let concretenessScore := n.labelCounts.concreteness / totalFeedbacks
        let constructiveScore := n.labelCounts.constructive / totalFeedbacks
        (relevanceScore + concretenessScore + constructiveScore) / 3
      else 0
  | .relevance =>
      if totalFeedbacks > 0 then n.labelCounts.relevance / totalFeedbacks else 0
  | .concreteness =>
      if totalFeedbacks > 0 then n.labelCounts.concreteness / totalFeedbacks else 0
  | .constructive =>
      if totalFeedbacks > 0 then n.labelCounts.constructive / totalFeedbacks else 0

/-- Per-reviewer accumulator of `calculateReviewerLabelAverages`. -/
structure RStats where
  totalLabel : ℚ
  count : ℕ
deriving DecidableEq

/-- The statistics key of `calculateReviewerLabelAverages`:
`Reviewer.trim().toUpperCase()`. -/
def normKey (s : String) : String := jsToUpper (jsTrim s)

/-- Pass-1 body of `calculateReviewerLabelAverages` for one record: skip it if
`Round` is not an array (after a console warning); otherwise create the
reviewer's entry when absent and add every parseable `Label`. -/
def statsStep (stats : AList RStats) (assignment : Assignment) : AList RStats :=
  match assignment.Round with
  | none => stats
  | some rounds =>
      let reviewer := normKey assignment.Reviewer
      let prev := (lookupA stats reviewer).getD { totalLabel := 0, count := 0 }
      let upd := rounds.foldl
        (fun s round =>
          match round.Label with
          | some label => { totalLabel := s.totalLabel + label, count := s.count + 1 }
          | none => s)
        prev
      upsertA stats reviewer upd

/-- An assignment record annotated with its reviewer's average label
(`avgLabel = none` models the `NaN` sentinel). -/
structure AnnAssignment where
  Reviewer : String
  Author : String
  Round : Option (List Round)
  avgLabel : Option ℚ
deriving DecidableEq

/-- Pass-2 lookup of `calculateReviewerLabelAverages`: the accumulated average
when the reviewer has an entry with positive count, `NaN` (`none`) otherwise. -/
def lookupAvg (stats : AList RStats) (reviewer : String) : Option ℚ :=
  match lookupA stats reviewer with
  | some s => if s.count > 0 then some (s.totalLabel / s.count) else none
  | none => none

/-- `calculateReviewerLabelAverages(assignments)`: two-pass fold, annotating
every input record with its reviewer's average label. -/
def calculateReviewerLabelAverages (assignments : List Assignment) :
    List AnnAssignment :=
  let reviewerStats := assignments.foldl statsStep []
  assignments.map (fun a =>
    { Reviewer := a.Reviewer, Author := a.Author, Round := a.Round,
      avgLabel := lookupAvg reviewerStats (normKey a.Reviewer) })

/-- The `validFeedbacks` filter of `getAvgLabelQuality`:
`r.Feedback && r.Feedback.trim() !== ""`. -/
def validFeedbacks (rounds : List Round) : List Round :=
  rounds.filter (fun r => r.Feedback ≠ "" && jsTrim r.Feedback ≠ "")

/-- `getAvgLabelQuality(rounds)`: mean of the numeric labels over the
non-empty-feedback rounds (non-numeric contributing 0), clamped to [0, 1];
0 when the input is empty or no feedback is valid. -/
def getAvgLabelQuality (rounds : List Round) : ℚ :=
  if rounds.length = 0 then 0
  else
    let valid := validFeedbacks rounds
    if valid.length = 0 then 0
    else
      let totalLabel := valid.foldl (fun sum r => sum + r.Label.getD 0) (0 : ℚ)
      let avgLabelQuality := totalLabel / valid.length
      max 0 (min 1 avgLabelQuality)

/-- Per-homework raw counters of `calculateHwLabelFrequency`. -/
structure HwStats where
  total : ℕ
  relevance : ℕ
  concreteness : ℕ
  constructive : ℕ
deriving DecidableEq

/-- Per-homework percentage entry of `calculateHwLabelFrequency`. -/
structure HwFreq where
  relevance : ℚ
  concreteness : ℚ
  constructive : ℚ
  total : ℕ
deriving DecidableEq

/-- Per-round body of the counting loop of `calculateHwLabelFrequency`: a round
is counted only when all three flags are defined; each flag strictly equal to 1
bumps its counter. -/
def countRound (st : HwStats) (round : Round) : HwStats :=
  if round.Relevance ≠ none ∧ round.Concreteness ≠ none ∧ round.Constructive ≠ none then
    { total := st.total + 1,
      relevance := st.relevance + (if round.Relevance = some 1 then (1:ℕ) else 0),
      concreteness := st.concreteness + (if round.Concreteness = some 1 then (1:ℕ) else 0),
      constructive := st.constructive + (if round.Constructive = some 1 then (1:ℕ) else 0) }
  else st

/-- The raw counters of one homework's records (`student.Round` must be an
array to be traversed). -/
def hwStatsOf (records : List Assignment) : HwStats :=
  records.foldl
    (fun st student =>
      match student.Round with
      | some rounds => rounds.foldl countRound st
      | none => st)
    { total := 0, relevance := 0, concreteness := 0, constructive := 0 }

/-- The percentage pass of `calculateHwLabelFrequency`: positive-count / total
× 100 when `total > 0`, all-zero otherwise. -/
def toPercent (stats : HwStats) : HwFreq :=
  if stats.total > 0 then
    { relevance := ((stats.relevance : ℚ) / stats.total) * 100,
      concreteness := ((stats.concreteness : ℚ) / stats.total) * 100,
      constructive := ((stats.constructive : ℚ) / stats.total) * 100,
      total := stats.total }
  else { relevance := 0, concreteness := 0, constructive := 0, total := 0 }

/-- `calculateHwLabelFrequency(data)`: per homework key, the label-frequency
percentages. -/
def calculateHwLabelFrequency (data : RawData) : AList HwFreq :=
  data.map (fun kv => (kv.1, toPercent (hwStatsOf kv.2)))

/-- One of the three binary labels. -/
inductive GLabel
  | relevance
  | concreteness
  | constructive
deriving DecidableEq

/-- The numeric value the aggregation reads for a label flag (`flag || 0`). -/
def flagVal (lbl : GLabel) (round : Round) : ℚ :=
  match lbl with
  | .relevance => round.Relevance.getD 0
  | .concreteness => round.Concreteness.getD 0
  | .constructive => round.Constructive.getD 0

/-- The trimmed feedback text of a round. -/
def fbOf (round : Round) : String := jsTrim round.Feedback

/-- The weighted score a single round contributes to `meaningfulScore`
(0 for an empty-feedback round). -/
def roundScore (round : Round) : ℚ :=
  if fbOf round ≠ "" then
    flagVal .relevance round * 30 + flagVal .concreteness round * 30 +
      flagVal .constructive round * 40
  else 0

/-- The amount a single round contributes to one label counter
(0 for an empty-feedback round). -/
def contrib (lbl : GLabel) (round : Round) : ℚ :=
  if fbOf round ≠ "" then flagVal lbl round else 0

/-- The (homework key, record) pairs traversed by `processReviewerData`, in
traversal order. -/
def selectedItems (rawData : RawData) (hwNames : List String) :
    List (String × Assignment) :=
  hwNames.flatMap (fun hwName =>
    ((lookupA rawData hwName).getD []).map (fun a => (hwName, a)))

/-- The traversed records whose `Reviewer` equals the given id. -/
def recordsOf (rawData : RawData) (hwNames : List String) (reviewer : String) :
    List Assignment :=
  ((selectedItems rawData hwNames).map Prod.snd).filter (fun a => a.Reviewer = reviewer)

/-- All rounds assigned to the given reviewer across the selected homework
keys, in traversal order (a non-array `Round` contributes no rounds). -/
def reviewerRounds (rawData : RawData) (hwNames : List String)
    (reviewer : String) : List Round :=
  (recordsOf rawData hwNames reviewer).flatMap (fun a => a.Round.getD [])

/-- Closed form of the accumulated (pre-finalization) node of a reviewer. -/
def nodeAccOf (rawData : RawData) (hwNames : List String) (reviewer : String) :
    NodeAcc :=
  let rds := reviewerRounds rawData hwNames reviewer
  { id := reviewer,
    totalRounds := rds.length,
    meaningfulScore := (rds.map roundScore).sum,
    feedbacks := rds.map fbOf,
    labelCounts :=
      { relevance := (rds.map (contrib .relevance)).sum,
        concreteness := (rds.map (contrib .concreteness)).sum,
        constructive := (rds.map (contrib .constructive)).sum } }

/-- The finalized node `processReviewerData` produces for a reviewer, when the
reviewer occurs in the selected records. -/
def nodeOf (rawData : RawData) (hwNames : List String) (reviewer : String) :
    Option NodeFin :=
  (lookupA (nodesMapOf rawData hwNames).1 reviewer).map finalizeNode

/-- The edge produced for one traversed (homework key, record) pair. -/
def edgeOf (item : String × Assignment) : Edge :=
  { fromId := item.2.Reviewer, toId := item.2.Author,
    completedAll := decide ((item.2.Round.getD []).length ≥ 3),
    hwName := item.1 }

/-- The effect of one record on the nodes map alone. -/
def applyRecord (n : NodeAcc) (a : Assignment) : NodeAcc :=
  let rounds := a.Round.getD []
  rounds.foldl processRound { n with totalRounds := n.totalRounds + rounds.length }

/-- `stepRecord` restricted to the nodes map. -/
def stepN (m : AList NodeAcc) (a : Assignment) : AList NodeAcc :=
  upsertA m a.Reviewer (applyRecord ((lookupA m a.Reviewer).getD (initNode a.Reviewer)) a)

/-- `stepRecord`, uncurried over a traversed (homework key, record) pair. -/
def stepItem (st : AList NodeAcc × List Edge) (item : String × Assignment) :
    AList NodeAcc × List Edge :=
  stepRecord item.1 st item.2

/-- All parseable labels of the records belonging to one normalized reviewer
key (a non-array `Round` contributes none). -/
def labelsOfKey (assignments : List Assignment) (key : String) : List ℚ :=
  (assignments.filter (fun a => normKey a.Reviewer = key)).flatMap
    (fun a => (a.Round.getD []).filterMap (fun rd => rd.Label))

/-- All rounds of a record list (a non-array `Round` contributes none). -/
def roundsOfRecords (records : List Assignment) : List Round :=
  records.flatMap (fun a => a.Round.getD [])

/-- Whether all three label flags of a round are defined. -/
def hasAllFlags (rd : Round) : Bool :=
  rd.Relevance ≠ none && rd.Concreteness ≠ none && rd.Constructive ≠ none

/-- Replace a non-array `Round` field by an explicit empty round list. -/
def normalizeRound (a : Assignment) : Assignment :=
  { a with Round := some (a.Round.getD []) }

/-- `normalizeRound` applied throughout a raw data set. -/
def normalizeRaw (raw : RawData) : RawData :=
  raw.map (fun kv => (kv.1, kv.2.map normalizeRound))

/-- Set one label flag of a round to the literal 1. -/
def setFlag (lbl : GLabel) (rd : Round) : Round :=
  match lbl with
  | .relevance => { rd with Relevance := some 1 }
  | .concreteness => { rd with Concreteness := some 1 }
  | .constructive => { rd with Constructive := some 1 }

/-- The single-label chart mode of a label. -/
def modeOf : GLabel → GMode
  | .relevance => .relevance
  | .concreteness => .concreteness
  | .constructive => .constructive

/-- The weight of a label in `meaningfulScore`. -/
def labelWeight : GLabel → ℚ
  | .relevance => 30
  | .concreteness => 30
  | .constructive => 40

/-- Round 1 of the specification's concrete scenario (property 7). -/
def c1Round1 : Round :=
  { Feedback := "good", Relevance := some 1, Concreteness := some 0,
    Constructive := some 1, Label := none }

/-- Round 2 of the specification's concrete scenario (property 7). -/
def c1Round2 : Round :=
  { Feedback := "", Relevance := some 1, Concreteness := some 1,
    Constructive := some 1, Label := none }

/-- The one-record input of the specification's concrete scenario. -/
def c1Raw : RawData :=
  [("HW1", [{ Reviewer := "A", Author := "B", Round := some [c1Round1, c1Round2] }])]

/-- A reviewer with one record and zero assigned rounds. -/
def c2Raw : RawData :=
  [("HW1", [{ Reviewer := "A", Author := "B", Round := some [] }])]

/-- A non-empty-feedback round with all three flags 0. -/
def c4Round : Round :=
  { Feedback := "x", Relevance := some 0, Concreteness := some 0,
    Constructive := some 0, Label := none }

/-- One reviewer, one record, one all-zero-flag round. -/
def c4Raw : RawData :=
  [("HW1", [{ Reviewer := "A", Author := "B", Round := some [c4Round] }])]

/-- `c4Raw` with the single round's Relevance flag raised to 1. -/
def c4Raw' : RawData :=
  [("HW1", [{ Reviewer := "A", Author := "B", Round := some [setFlag .relevance c4Round] }])]

/-- A fully-labelled round (all three flags 1). -/
def c5Round1 : Round :=
  { Feedback := "", Relevance := some 1, Concreteness := some 1,
    Constructive := some 1, Label := none }

/-- A round with only Relevance defined. -/
def c5Round2 : Round :=
  { Feedback := "", Relevance := some 1, Concreteness := none,
    Constructive := none, Label := none }

/-- The frequency-chart scenario: one homework key, one record, the two rounds
above. -/
def c5Data : RawData :=
  [("HW1", [{ Reviewer := "A", Author := "B", Round := some [c5Round1, c5Round2] }])]

/-- A homework key with no records (zero counted rounds). -/
def c5Empty : RawData := [("HW2", [])]

/-- Two records: a reviewer key "A" (written denormalized as "a ") with one
parseable label 2, and a reviewer whose `Round` is not an array. -/
def c6Assignments : List Assignment :=
  [{ Reviewer := "a ", Author := "B",
     Round := some [{ Feedback := "", Relevance := none, Concreteness := none,
                      Constructive := none, Label := some 2 }] },
   { Reviewer := "C", Author := "D", Round := none }]

/-- Two rounds: a valid-feedback one with label 2 (out of range, exercises the
clamp) and an empty-feedback one. -/
def c7Rounds : List Round :=
  [{ Feedback := "ok", Relevance := none, Concreteness := none,
     Constructive := none, Label := some 2 },
   { Feedback := "", Relevance := none, Concreteness := none,
     Constructive := none, Label := some 1 }]


/-- The finalized node the pipeline produces for reviewer A of `c1Raw`. -/
def c1Node : NodeFin :=
  { id := "A", totalRounds := 2, meaningfulScore := 70, feedbacks := ["good", ""],
    labelCounts := { relevance := 1, concreteness := 0, constructive := 1 },
    isFeedbackEmpty := false }

/-- The finalized node the pipeline produces for reviewer A of `c2Raw`. -/
def c2Node : NodeFin :=
  { id := "A", totalRounds := 0, meaningfulScore := 0, feedbacks := [],
    labelCounts := { relevance := 0, concreteness := 0, constructive := 0 },
    isFeedbackEmpty := true }


/-- The `labelCounts[mode]` bracket access of the single-label score path. -/
def lcGet (lc : LabelCounts) : GLabel → ℚ
  | .relevance => lc.relevance
  | .concreteness => lc.concreteness
  | .constructive => lc.constructive


/-- The annotated record the label-average pass produces for the first record
of `c6Assignments`. -/
def c6Out : AnnAssignment :=
  { Reviewer := "a ", Author := "B",
    Round := some [{ Feedback := "", Relevance := none, Concreteness := none,
                     Constructive := none, Label := some 2 }],
    avgLabel := some 2 }


/-- The traversed (homework key, record) pair of `c2Raw`, whose record has an
empty round list. -/
def c2Item : String × Assignment :=
  ("HW1", { Reviewer := "A", Author := "B", Round := some [] })


/-! Association-list lemmas. -/

theorem lookupA_upsertA {β : Type} (l : AList β) (k : String) (v : β) (key : String) :
    lookupA (upsertA l k v) key = if k = key then some v else lookupA l key := by
  induction l with
  | nil => simp [upsertA, lookupA]
  | cons hd tl ih =>
      obtain ⟨k', w⟩ := hd
      by_cases h : k' = k
      · subst h
        by_cases h2 : k' = key <;> simp [upsertA, lookupA, h2]
      · by_cases h2 : k' = key
        · subst h2
          have hk : ¬ k = k' := fun he => h he.symm
          simp [upsertA, lookupA, h, hk]
        · simp [upsertA, lookupA, h, h2, ih]

theorem mem_keysA_upsertA {β : Type} (l : AList β) (k : String) (v : β) (key : String) :
    key ∈ keysA (upsertA l k v) ↔ key ∈ keysA l ∨ key = k := by
  induction l with
  | nil => simp [upsertA, keysA]
  | cons hd tl ih =>
      obtain ⟨k', w⟩ := hd
      by_cases h : k' = k
      · subst h
        simp only [upsertA, if_true, keysA, List.map_cons, List.mem_cons]
        tauto
      · simp only [upsertA, if_neg h, keysA, List.map_cons, List.mem_cons]
        have ih' : key ∈ (upsertA tl k v).map Prod.fst ↔ key ∈ tl.map Prod.fst ∨ key = k := ih
        rw [ih']
        tauto

theorem nodup_keysA_upsertA {β : Type} (l : AList β) (k : String) (v : β)
    (h : (keysA l).Nodup) : (keysA (upsertA l k v)).Nodup := by
  induction l with
  | nil => simp [upsertA, keysA]
  | cons hd tl ih =>
      obtain ⟨k', w⟩ := hd
      simp only [keysA, List.map_cons, List.nodup_cons] at h
      by_cases hk : k' = k
      · subst hk
        simpa [upsertA, keysA, List.nodup_cons] using h
      · have h1 : k' ∉ keysA (upsertA tl k v) := by
          rw [mem_keysA_upsertA]
          push_neg
          exact ⟨h.1, hk⟩
        have h2 := ih h.2
        simp only [upsertA, if_neg hk, keysA, List.map_cons, List.nodup_cons]
        exact ⟨h1, h2⟩

theorem lookupA_of_mem {β : Type} {l : AList β} {k : String} {v : β}
    (hnd : (keysA l).Nodup) (hm : (k, v) ∈ l) : lookupA l k = some v := by
  induction l with
  | nil => simp at hm
  | cons hd tl ih =>
      obtain ⟨k', w⟩ := hd
      simp only [keysA, List.map_cons, List.nodup_cons] at hnd
      rcases List.mem_cons.mp hm with he | ht
      · obtain ⟨h1, h2⟩ := Prod.mk.injEq .. ▸ he
        subst h1; subst h2
        simp [lookupA]
      · have hk : k ∈ keysA tl := List.mem_map_of_mem Prod.fst ht
        have hne : ¬ k' = k := fun he => hnd.1 (he ▸ hk)
        simp [lookupA, hne, ih hnd.2 ht]

theorem mem_of_lookupA {β : Type} {l : AList β} {k : String} {v : β}
    (h : lookupA l k = some v) : (k, v) ∈ l := by
  induction l with
  | nil => simp [lookupA] at h
  | cons hd tl ih =>
      obtain ⟨k', w⟩ := hd
      rw [lookupA] at h
      by_cases hk : k' = k
      · rw [if_pos hk] at h
        subst hk
        exact List.mem_cons.mpr (Or.inl (by rw [Option.some_inj.mp h]))
      · rw [if_neg hk] at h
        exact List.mem_cons.mpr (Or.inr (ih h))


/-! Closed forms of the record fold of `processReviewerData`. -/

theorem processRound_eq (n : NodeAcc) (rd : Round) :
    processRound n rd =
      { id := n.id, totalRounds := n.totalRounds,
        meaningfulScore := n.meaningfulScore + roundScore rd,
        feedbacks := n.feedbacks ++ [fbOf rd],
        labelCounts :=
          { relevance := n.labelCounts.relevance + contrib .relevance rd,
            concreteness := n.labelCounts.concreteness + contrib .concreteness rd,
            constructive := n.labelCounts.constructive + contrib .constructive rd } } := by
  obtain ⟨i, tr, ms, fbs, ⟨cr, cc, cs⟩⟩ := n
  by_cases h : jsTrim rd.Feedback = ""
  · simp [processRound, roundScore, contrib, fbOf, h, flagVal]
  · simp [processRound, roundScore, contrib, fbOf, h, flagVal]

theorem foldl_processRound (rds : List Round) (n : NodeAcc) :
    rds.foldl processRound n =
      { id := n.id, totalRounds := n.totalRounds,
        meaningfulScore := n.meaningfulScore + (rds.map roundScore).sum,
        feedbacks := n.feedbacks ++ rds.map fbOf,
        labelCounts :=
          { relevance := n.labelCounts.relevance + (rds.map (contrib .relevance)).sum,
            concreteness := n.labelCounts.concreteness + (rds.map (contrib .concreteness)).sum,
            constructive := n.labelCounts.constructive + (rds.map (contrib .constructive)).sum } } := by
  induction rds generalizing n with
  | nil => obtain ⟨i, tr, ms, fbs, ⟨cr, cc, cs⟩⟩ := n; simp
  | cons rd rds ih =>
      rw [List.foldl_cons, processRound_eq, ih]
      simp [add_assoc, List.append_assoc]

theorem applyRecord_eq (n : NodeAcc) (a : Assignment) :
    applyRecord n a =
      { id := n.id,
        totalRounds := n.totalRounds + (a.Round.getD []).length,
        meaningfulScore := n.meaningfulScore + ((a.Round.getD []).map roundScore).sum,
        feedbacks := n.feedbacks ++ (a.Round.getD []).map fbOf,
        labelCounts :=
          { relevance := n.labelCounts.relevance +
              ((a.Round.getD []).map (contrib .relevance)).sum,
            concreteness := n.labelCounts.concreteness +
              ((a.Round.getD []).map (contrib .concreteness)).sum,
            constructive := n.labelCounts.constructive +
              ((a.Round.getD []).map (contrib .constructive)).sum } } := by
  unfold applyRecord
  rw [foldl_processRound]

theorem foldl_applyRecord (recs : List Assignment) (n : NodeAcc) :
    recs.foldl applyRecord n =
      { id := n.id,
        totalRounds := n.totalRounds + (roundsOfRecords recs).length,
        meaningfulScore := n.meaningfulScore + ((roundsOfRecords recs).map roundScore).sum,
        feedbacks := n.feedbacks ++ (roundsOfRecords recs).map fbOf,
        labelCounts :=
          { relevance := n.labelCounts.relevance +
              ((roundsOfRecords recs).map (contrib .relevance)).sum,
            concreteness := n.labelCounts.concreteness +
              ((roundsOfRecords recs).map (contrib .concreteness)).sum,
            constructive := n.labelCounts.constructive +
              ((roundsOfRecords recs).map (contrib .constructive)).sum } } := by
  induction recs generalizing n with
  | nil => obtain ⟨i, tr, ms, fbs, ⟨cr, cc, cs⟩⟩ := n; simp [roundsOfRecords]
  | cons a recs ih =>
      rw [List.foldl_cons, applyRecord_eq, ih]
      simp [roundsOfRecords, add_assoc, List.append_assoc]

theorem lookupA_foldl_stepN (as : List Assignment) (m : AList NodeAcc) (r : String) :
    lookupA (as.foldl stepN m) r =
      if as.filter (fun a => a.Reviewer = r) = [] then lookupA m r
      else some ((as.filter (fun a => a.Reviewer = r)).foldl applyRecord
        ((lookupA m r).getD (initNode r))) := by
  induction as generalizing m with
  | nil => simp
  | cons a as ih =>
      rw [List.foldl_cons, ih]
      by_cases hr : a.Reviewer = r
      · subst hr
        have hl : lookupA (stepN m a) a.Reviewer =
            some (applyRecord ((lookupA m a.Reviewer).getD (initNode a.Reviewer)) a) := by
          rw [stepN, lookupA_upsertA, if_pos rfl]
        rw [hl]
        by_cases hf : as.filter (fun x => x.Reviewer = a.Reviewer) = [] <;>
          simp [hf, List.filter_cons]
      · have hl : lookupA (stepN m a) r = lookupA m r := by
          rw [stepN, lookupA_upsertA, if_neg hr]
        rw [hl]
        simp [List.filter_cons, hr]

theorem stepItem_eq (st : AList NodeAcc × List Edge) (item : String × Assignment) :
    stepItem st item = (stepN st.1 item.2, st.2 ++ [edgeOf item]) := rfl

theorem foldl_stepItem (items : List (String × Assignment))
    (st : AList NodeAcc × List Edge) :
    items.foldl stepItem st =
      ((items.map Prod.snd).foldl stepN st.1, st.2 ++ items.map edgeOf) := by
  induction items generalizing st with
  | nil => simp
  | cons it items ih =>
      rw [List.foldl_cons, stepItem_eq, ih]
      simp

theorem nodesMapOf_aux (rawData : RawData) (hwNames : List String)
    (st : AList NodeAcc × List Edge) :
    hwNames.foldl
        (fun st hwName => ((lookupA rawData hwName).getD []).foldl (stepRecord hwName) st) st
      = (selectedItems rawData hwNames).foldl stepItem st := by
  induction hwNames generalizing st with
  | nil => simp [selectedItems]
  | cons hw hws ih =>
      rw [List.foldl_cons, ih]
      simp only [selectedItems, List.flatMap_cons, List.foldl_append, List.foldl_map]
      rfl

theorem nodesMapOf_eq_foldl (rawData : RawData) (hwNames : List String) :
    nodesMapOf rawData hwNames = (selectedItems rawData hwNames).foldl stepItem ([], []) :=
  nodesMapOf_aux rawData hwNames ([], [])

theorem nodesMap_fst (rawData : RawData) (hwNames : List String) :
    (nodesMapOf rawData hwNames).1 =
      ((selectedItems rawData hwNames).map Prod.snd).foldl stepN [] := by
  rw [nodesMapOf_eq_foldl, foldl_stepItem]

theorem links_eq (rawData : RawData) (hwNames : List String) :
    (nodesMapOf rawData hwNames).2 = (selectedItems rawData hwNames).map edgeOf := by
  rw [nodesMapOf_eq_foldl, foldl_stepItem]
  simp

theorem lookupA_nodesMap (rawData : RawData) (hwNames : List String) (r : String) :
    lookupA (nodesMapOf rawData hwNames).1 r =
      if recordsOf rawData hwNames r = [] then none
      else some (nodeAccOf rawData hwNames r) := by
  rw [nodesMap_fst, lookupA_foldl_stepN]
  by_cases hf : recordsOf rawData hwNames r = []
  · rw [recordsOf] at hf
    simp [hf, lookupA, recordsOf]
  · rw [recordsOf] at hf
    rw [if_neg hf, if_neg (by rw [recordsOf]; exact hf)]
    rw [show ((lookupA ([] : AList NodeAcc) r).getD (initNode r)) = initNode r from rfl]
    rw [foldl_applyRecord]
    simp [nodeAccOf, reviewerRounds, roundsOfRecords, recordsOf, initNode]

theorem nodup_keys_foldl_stepN (as : List Assignment) (m : AList NodeAcc)
    (h : (keysA m).Nodup) : (keysA (as.foldl stepN m)).Nodup := by
  induction as generalizing m with
  | nil => exact h
  | cons a as ih =>
      rw [List.foldl_cons]
      exact ih _ (nodup_keysA_upsertA _ _ _ h)

theorem nodup_keys_nodesMap (rawData : RawData) (hwNames : List String) :
    (keysA (nodesMapOf rawData hwNames).1).Nodup := by
  rw [nodesMap_fst]
  exact nodup_keys_foldl_stepN _ _ (by simp [keysA])

theorem mem_nodes_elim {rawData : RawData} {mode : String} {hwNames : List String}
    {n : NodeFin} (h : n ∈ (processReviewerData rawData mode hwNames).nodes) :
    ∃ r, recordsOf rawData hwNames r ≠ [] ∧
      n = finalizeNode (nodeAccOf rawData hwNames r) := by
  rw [processReviewerData] at h
  obtain ⟨kv, hkv, hn⟩ := List.mem_map.mp h
  have hmem : (kv.1, kv.2) ∈ (nodesMapOf rawData hwNames).1 := by
    simpa using hkv
  have hl := lookupA_of_mem (nodup_keys_nodesMap rawData hwNames) hmem
  rw [lookupA_nodesMap] at hl
  by_cases hf : recordsOf rawData hwNames kv.1 = []
  · rw [if_pos hf] at hl
    exact absurd hl (by simp)
  · rw [if_neg hf] at hl
    refine ⟨kv.1, hf, ?_⟩
    rw [← hn, Option.some_inj.mp hl]


/-! Generic bounds for the completion rate. -/

theorem completionRate_nonneg (n : NodeFin) : 0 ≤ completionRate n := by
  rw [completionRate]
  by_cases h : n.feedbacks.length > 0
  · rw [if_pos h]
    positivity
  · rw [if_neg h]

theorem completionRate_le_one (n : NodeFin) : completionRate n ≤ 1 := by
  rw [completionRate]
  by_cases h : n.feedbacks.length > 0
  · rw [if_pos h]
    rw [div_le_one (by exact_mod_cast h)]
    exact_mod_cast List.length_filter_le _ _
  · rw [if_neg h]
    norm_num


/-! Helper lemmas for the claim theorems. -/

theorem completionRate_eq_one_iff (n : NodeFin) :
    completionRate n = 1 ↔ n.feedbacks ≠ [] ∧ ∀ fb ∈ n.feedbacks, fb ≠ "" := by
  by_cases hl : n.feedbacks = []
  · simp [completionRate, hl]
  · have hlen : n.feedbacks.length > 0 := List.length_pos.mpr hl
    rw [completionRate]
    simp only [if_pos hlen]
    rw [div_eq_one_iff_eq (by exact_mod_cast hlen.ne')]
    rw [Nat.cast_inj, List.filter_length_eq_length]
    simp [hl]

theorem roundScore_nonneg {rd : Round}
    (h : ∀ lbl : GLabel, flagVal lbl rd = 0 ∨ flagVal lbl rd = 1) :
    0 ≤ roundScore rd := by
  rw [roundScore]
  split
  · have h1 := h .relevance
    have h2 := h .concreteness
    have h3 := h .constructive
    rcases h1 with h1 | h1 <;> rcases h2 with h2 | h2 <;> rcases h3 with h3 | h3 <;>
      rw [h1, h2, h3] <;> norm_num
  · exact le_refl 0

/-- Evaluation of the node list on the concrete scenario input. -/
theorem c1Raw_nodes_eval :
    (processReviewerData c1Raw "all" ["HW1"]).nodes = [c1Node] := by
  have h1 : jsTrim "good" = "good" := by decide
  have h2 : jsTrim "" = "" := by decide
  have h3 : ("good" : String) ≠ "" := by decide
  simp [processReviewerData, nodesMapOf, c1Raw, lookupA, stepRecord, upsertA,
    processRound, c1Round1, c1Round2, finalizeNode, initNode, h1, h2, h3, c1Node]
  norm_num

/-- C1: on the spec's concrete scenario (one homework key HW1, one record
A→B with rounds (good,1,0,1) and ("",1,1,1)) the pipeline produces exactly the
node A with feedbacks ["good",""], labelCounts {relevance 1, concreteness 0,
constructive 1}, meaningfulScore 70, derived completionRate 1/2, and exactly
the edge A→B with completedAll = false. -/
theorem C1_concrete_scenario :
    (processReviewerData c1Raw "all" ["HW1"]).nodes = [c1Node] ∧
    ((processReviewerData c1Raw "all" ["HW1"]).nodes.map completionRate) = [1 / 2] ∧
    (processReviewerData c1Raw "all" ["HW1"]).links =
      [{ fromId := "A", toId := "B", completedAll := false, hwName := "HW1" }] := by
  have h1 : jsTrim "good" = "good" := by decide
  have h2 : jsTrim "" = "" := by decide
  have h3 : ("good" : String) ≠ "" := by decide
  refine ⟨c1Raw_nodes_eval, ?_, ?_⟩
  · simp [processReviewerData, nodesMapOf, c1Raw, lookupA, stepRecord, upsertA,
      processRound, c1Round1, c1Round2, finalizeNode, initNode, h1, h2, h3, completionRate]
  · simp [processReviewerData, nodesMapOf, c1Raw, lookupA, stepRecord, upsertA,
      processRound, c1Round1, c1Round2]

/-- C2 (amended): every produced node's completionRate lies in [0,1], and it
equals 1 iff the reviewer has at least one assigned round and every assigned
round has non-empty (trimmed) feedback. (The original claim's biconditional,
without the at-least-one-round condition, fails for a reviewer with zero
assigned rounds; see the counterexample.) -/
theorem C2_completion_rate (rawData : RawData) (mode : String) (hwNames : List String) :
    ∀ n ∈ (processReviewerData rawData mode hwNames).nodes,
      (0 ≤ completionRate n ∧ completionRate n ≤ 1) ∧
      (completionRate n = 1 ↔
        reviewerRounds rawData hwNames n.id ≠ [] ∧
          ∀ rd ∈ reviewerRounds rawData hwNames n.id, fbOf rd ≠ "") := by
  intro n hn
  obtain ⟨r, hr, rfl⟩ := mem_nodes_elim hn
  refine ⟨⟨completionRate_nonneg _, completionRate_le_one _⟩, ?_⟩
  have hid : (finalizeNode (nodeAccOf rawData hwNames r)).id = r := rfl
  have hfb : (finalizeNode (nodeAccOf rawData hwNames r)).feedbacks
      = (reviewerRounds rawData hwNames r).map fbOf := rfl
  rw [hid, completionRate_eq_one_iff, hfb]
  simp [List.forall_mem_map]

/-- C2 counterexample: for the input where reviewer A has one record whose
`Round` is the empty array, the produced node has completionRate 0 while every
(zero) assigned round vacuously has non-empty feedback, so the claimed
biconditional "completionRate = 1 iff every assigned round has non-empty
feedback" is false for this produced node. -/
theorem C2_counterexample :
    (processReviewerData c2Raw "all" ["HW1"]).nodes = [c2Node] ∧
    reviewerRounds c2Raw ["HW1"] c2Node.id = [] ∧
    ¬ (completionRate c2Node = 1 ↔
        ∀ rd ∈ reviewerRounds c2Raw ["HW1"] c2Node.id, fbOf rd ≠ "") := by
  refine ⟨?_, rfl, ?_⟩
  · simp [processReviewerData, nodesMapOf, c2Raw, lookupA, stepRecord, upsertA,
      finalizeNode, initNode, c2Node]
  · have h : reviewerRounds c2Raw ["HW1"] c2Node.id = [] := rfl
    rw [h]
    simp [completionRate, c2Node]

/-- C2 witness: the amended theorem applied to the concrete scenario node. -/
theorem C2_witness :
    c1Node ∈ (processReviewerData c1Raw "all" ["HW1"]).nodes ∧
    ((0 ≤ completionRate c1Node ∧ completionRate c1Node ≤ 1) ∧
      (completionRate c1Node = 1 ↔
        reviewerRounds c1Raw ["HW1"] c1Node.id ≠ [] ∧
          ∀ rd ∈ reviewerRounds c1Raw ["HW1"] c1Node.id, fbOf rd ≠ "")) := by
  have hmem : c1Node ∈ (processReviewerData c1Raw "all" ["HW1"]).nodes := by
    rw [c1Raw_nodes_eval]
    exact List.mem_singleton.mpr rfl
  exact ⟨hmem, C2_completion_rate c1Raw "all" ["HW1"] c1Node hmem⟩

/-- C3: when every label flag carried by the reviewer's rounds is 0 or 1, the
finalized meaningfulScore lies in [0,100]; it equals the weighted per-round sum
over non-empty-feedback rounds divided by their count and capped at 100, and is
exactly 0 when there is no non-empty-feedback round. -/
theorem C3_meaningful_score (rawData : RawData) (mode : String) (hwNames : List String) :
    ∀ n ∈ (processReviewerData rawData mode hwNames).nodes,
      (∀ rd ∈ reviewerRounds rawData hwNames n.id, ∀ lbl : GLabel,
          flagVal lbl rd = 0 ∨ flagVal lbl rd = 1) →
      (0 ≤ n.meaningfulScore ∧ n.meaningfulScore ≤ 100) ∧
      n.meaningfulScore =
        min
          (if (((reviewerRounds rawData hwNames n.id).map fbOf).filter (· ≠ "")).length > 0
           then ((reviewerRounds rawData hwNames n.id).map roundScore).sum /
                (((reviewerRounds rawData hwNames n.id).map fbOf).filter (· ≠ "")).length
           else 0) 100 ∧
      ((((reviewerRounds rawData hwNames n.id).map fbOf).filter (· ≠ "")).length = 0 →
        n.meaningfulScore = 0) := by
  intro n hn hflags
  obtain ⟨r, hr, rfl⟩ := mem_nodes_elim hn
  have hid : (finalizeNode (nodeAccOf rawData hwNames r)).id = r := rfl
  rw [hid] at hflags ⊢
  have hform : (finalizeNode (nodeAccOf rawData hwNames r)).meaningfulScore =
      min
        (if (((reviewerRounds rawData hwNames r).map fbOf).filter (· ≠ "")).length > 0
         then ((reviewerRounds rawData hwNames r).map roundScore).sum /
              (((reviewerRounds rawData hwNames r).map fbOf).filter (· ≠ "")).length
         else 0) 100 := rfl
  have hsum : 0 ≤ ((reviewerRounds rawData hwNames r).map roundScore).sum := by
    apply List.sum_nonneg
    intro x hx
    obtain ⟨rd, hrd, rfl⟩ := List.mem_map.mp hx
    exact roundScore_nonneg (hflags rd hrd)
  have havg : 0 ≤
      (if (((reviewerRounds rawData hwNames r).map fbOf).filter (· ≠ "")).length > 0
       then ((reviewerRounds rawData hwNames r).map roundScore).sum /
            (((reviewerRounds rawData hwNames r).map fbOf).filter (· ≠ "")).length
       else 0) := by
    split
    · exact div_nonneg hsum (by positivity)
    · exact le_refl 0
  refine ⟨⟨?_, ?_⟩, hform, ?_⟩
  · rw [hform]
    exact le_min havg (by norm_num)
  · rw [hform]
    exact min_le_right _ _
  · intro hv
    rw [hform, hv]
    norm_num

/-- C3 witness: the theorem applied to the concrete scenario, whose rounds
carry only 0/1 flags. -/
theorem C3_witness :
    c1Node ∈ (processReviewerData c1Raw "all" ["HW1"]).nodes ∧
    (0 ≤ c1Node.meaningfulScore ∧ c1Node.meaningfulScore ≤ 100) := by
  have hmem : c1Node ∈ (processReviewerData c1Raw "all" ["HW1"]).nodes := by
    rw [c1Raw_nodes_eval]
    exact List.mem_singleton.mpr rfl
  have hflags : ∀ rd ∈ reviewerRounds c1Raw ["HW1"] c1Node.id, ∀ lbl : GLabel,
      flagVal lbl rd = 0 ∨ flagVal lbl rd = 1 := by
    have h : reviewerRounds c1Raw ["HW1"] c1Node.id = [c1Round1, c1Round2] := rfl
    rw [h]
    intro rd hrd lbl
    simp only [List.mem_cons, List.not_mem_nil, or_false] at hrd
    rcases hrd with rfl | rfl
    · cases lbl <;> simp [flagVal, c1Round1]
    · cases lbl <;> simp [flagVal, c1Round2]
  exact ⟨hmem, (C3_meaningful_score c1Raw "all" ["HW1"] c1Node hmem hflags).1⟩

/-- C9: every produced node's visual size is 15 + completionRate × 35, lies in
[15, 50], and is determined by completionRate alone (any node with the same
completionRate gets the same size, regardless of its color score). -/
theorem C9_node_size (rawData : RawData) (mode : String) (hwNames : List String) :
    ∀ n ∈ (processReviewerData rawData mode hwNames).nodes,
      visNodeValue n = 15 + completionRate n * 35 ∧
      (15 ≤ visNodeValue n ∧ visNodeValue n ≤ 50) ∧
      ∀ m : NodeFin, completionRate m = completionRate n → visNodeValue m = visNodeValue n := by
  intro n _
  refine ⟨rfl, ⟨?_, ?_⟩, ?_⟩
  · have h := completionRate_nonneg n
    rw [visNodeValue, sizeScale]
    nlinarith
  · have h := completionRate_le_one n
    rw [visNodeValue, sizeScale]
    nlinarith
  · intro m hm
    rw [visNodeValue, visNodeValue, sizeScale, sizeScale, hm]

/-- C9 witness: the theorem applied to the concrete scenario node. -/
theorem C9_witness :
    c1Node ∈ (processReviewerData c1Raw "all" ["HW1"]).nodes ∧
    visNodeValue c1Node = 15 + completionRate c1Node * 35 ∧
    (15 ≤ visNodeValue c1Node ∧ visNodeValue c1Node ≤ 50) := by
  have hmem : c1Node ∈ (processReviewerData c1Raw "all" ["HW1"]).nodes := by
    rw [c1Raw_nodes_eval]
    exact List.mem_singleton.mpr rfl
  have h := C9_node_size c1Raw "all" ["HW1"] c1Node hmem
  exact ⟨hmem, h.1, h.2.1⟩

/-- C10: `processReviewerData` emits exactly one edge per traversed record, in
order, with from = Reviewer, to = Author, completedAll = (round count ≥ 3,
where a missing/non-array Round counts as zero rounds), and the originating
homework key; hence the number of links equals the total number of records
across the selected homework keys. Moreover every traversed record — also one
whose Round is missing/non-array (`none`) or empty — creates or updates its
reviewer's node (the output contains a node with that reviewer's id), and such
zero-round records get an edge with completedAll = false rather than being
dropped. -/
theorem C10_one_edge_per_record (rawData : RawData) (mode : String) (hwNames : List String) :
    (processReviewerData rawData mode hwNames).links
        = (selectedItems rawData hwNames).map edgeOf ∧
    (processReviewerData rawData mode hwNames).links.length
        = (hwNames.map (fun hwName => ((lookupA rawData hwName).getD []).length)).sum ∧
    (∀ item ∈ selectedItems rawData hwNames,
      ∃ n ∈ (processReviewerData rawData mode hwNames).nodes, n.id = item.2.Reviewer) ∧
    (∀ item ∈ selectedItems rawData hwNames,
      item.2.Round = none ∨ item.2.Round = some [] →
        (edgeOf item).completedAll = false) := by
  have h : (processReviewerData rawData mode hwNames).links
      = (selectedItems rawData hwNames).map edgeOf := links_eq rawData hwNames
  refine ⟨h, ?_, ?_, ?_⟩
  · rw [h, List.length_map]
    simp [selectedItems, Function.comp_def]
  · intro item hitem
    have hrec : recordsOf rawData hwNames item.2.Reviewer ≠ [] := by
      intro he
      have hmem2 : item.2 ∈ (selectedItems rawData hwNames).map Prod.snd :=
        List.mem_map_of_mem Prod.snd hitem
      have hmem3 : item.2 ∈ recordsOf rawData hwNames item.2.Reviewer := by
        rw [recordsOf]
        exact List.mem_filter.mpr ⟨hmem2, by simp⟩
      rw [he] at hmem3
      cases hmem3
    have hl : lookupA (nodesMapOf rawData hwNames).1 item.2.Reviewer
        = some (nodeAccOf rawData hwNames item.2.Reviewer) := by
      rw [lookupA_nodesMap, if_neg hrec]
    refine ⟨finalizeNode (nodeAccOf rawData hwNames item.2.Reviewer), ?_, rfl⟩
    rw [processReviewerData]
    exact List.mem_map_of_mem (fun kv => finalizeNode kv.2) (mem_of_lookupA hl)
  · intro item hitem hR
    rcases hR with hR | hR <;> simp [edgeOf, hR]

/-- C10 witness: the theorem applied to a record with an empty round list —
its reviewer still gets a node and its edge has completedAll = false. -/
theorem C10_witness :
    c2Item ∈ selectedItems c2Raw ["HW1"] ∧
    (∃ n ∈ (processReviewerData c2Raw "all" ["HW1"]).nodes, n.id = c2Item.2.Reviewer) ∧
    (edgeOf c2Item).completedAll = false := by
  have hsel : selectedItems c2Raw ["HW1"] = [c2Item] := rfl
  have hmem : c2Item ∈ selectedItems c2Raw ["HW1"] := by
    rw [hsel]
    exact List.mem_singleton.mpr rfl
  have h := C10_one_edge_per_record c2Raw "all" ["HW1"]
  exact ⟨hmem, h.2.2.1 c2Item hmem, h.2.2.2 c2Item hmem (Or.inr rfl)⟩


/-! Helper lemmas for the single-flag monotonicity claim. -/

theorem fbOf_setFlag (lbl : GLabel) (rd : Round) : fbOf (setFlag lbl rd) = fbOf rd := by
  cases lbl <;> rfl

theorem flagVal_setFlag_self (lbl : GLabel) (rd : Round) :
    flagVal lbl (setFlag lbl rd) = 1 := by
  cases lbl <;> rfl

theorem labelWeight_pos (lbl : GLabel) : 0 < labelWeight lbl := by
  cases lbl <;> norm_num [labelWeight]

theorem contrib_setFlag (b lbl : GLabel) (rd : Round) (hfb : fbOf rd ≠ "")
    (h0 : flagVal lbl rd = 0) :
    contrib b (setFlag lbl rd) = contrib b rd + (if b = lbl then 1 else 0) := by
  by_cases he : b = lbl
  · subst he
    rw [if_pos rfl, contrib, contrib, if_pos (by rw [fbOf_setFlag]; exact hfb),
      if_pos hfb, flagVal_setFlag_self, h0]
    norm_num
  · rw [if_neg he, add_zero]
    cases b <;> cases lbl <;> first | rfl | exact absurd rfl he

theorem roundScore_setFlag (lbl : GLabel) (rd : Round) (hfb : fbOf rd ≠ "")
    (h0 : flagVal lbl rd = 0) :
    roundScore (setFlag lbl rd) = roundScore rd + labelWeight lbl := by
  cases lbl with
  | relevance =>
      rw [roundScore, roundScore, if_pos (by rw [fbOf_setFlag]; exact hfb), if_pos hfb,
        labelWeight]
      have h1 : flagVal .relevance (setFlag .relevance rd) = 1 := flagVal_setFlag_self _ _
      have h2 : flagVal .concreteness (setFlag .relevance rd) = flagVal .concreteness rd := rfl
      have h3 : flagVal .constructive (setFlag .relevance rd) = flagVal .constructive rd := rfl
      rw [h1, h2, h3, h0]
      ring
  | concreteness =>
      rw [roundScore, roundScore, if_pos (by rw [fbOf_setFlag]; exact hfb), if_pos hfb,
        labelWeight]
      have h1 : flagVal .concreteness (setFlag .concreteness rd) = 1 := flagVal_setFlag_self _ _
      have h2 : flagVal .relevance (setFlag .concreteness rd) = flagVal .relevance rd := rfl
      have h3 : flagVal .constructive (setFlag .concreteness rd) = flagVal .constructive rd := rfl
      rw [h1, h2, h3, h0]
      ring
  | constructive =>
      rw [roundScore, roundScore, if_pos (by rw [fbOf_setFlag]; exact hfb), if_pos hfb,
        labelWeight]
      have h1 : flagVal .constructive (setFlag .constructive rd) = 1 := flagVal_setFlag_self _ _
      have h2 : flagVal .relevance (setFlag .constructive rd) = flagVal .relevance rd := rfl
      have h3 : flagVal .concreteness (setFlag .constructive rd) = flagVal .concreteness rd := rfl
      rw [h1, h2, h3, h0]
      ring

theorem nodeScore_modeOf (lbl : GLabel) (n : NodeFin) :
    nodeScore (modeOf lbl) n =
      if (n.feedbacks.filter (· ≠ "")).length > 0
      then lcGet n.labelCounts lbl / (n.feedbacks.filter (· ≠ "")).length
      else 0 := by
  cases lbl <;> rfl

theorem nodeScore_all_eq (n : NodeFin) :
    nodeScore GMode.all n =
      if (n.feedbacks.filter (· ≠ "")).length > 0
      then (n.labelCounts.relevance / (n.feedbacks.filter (· ≠ "")).length +
            n.labelCounts.concreteness / (n.feedbacks.filter (· ≠ "")).length +
            n.labelCounts.constructive / (n.feedbacks.filter (· ≠ "")).length) / 3
      else 0 := rfl


/-- C4: raising a single 0 label flag of a non-empty-feedback round to 1 (all
else fixed) strictly increases that reviewer's single-label-mode score for
that label and the all-mode score in the styling layer, and never decreases
the reviewer's meaningfulScore. The two inputs are constrained to agree on the
reviewer's round sequence except at the one modified round. -/
theorem C4_label_rate_monotonicity (rawData rawData' : RawData) (hwNames : List String)
    (r : String) (lbl : GLabel) (rd : Round) (rs1 rs2 : List Round)
    (h : reviewerRounds rawData hwNames r = rs1 ++ rd :: rs2)
    (h' : reviewerRounds rawData' hwNames r = rs1 ++ setFlag lbl rd :: rs2)
    (hfb : fbOf rd ≠ "")
    (h0 : flagVal lbl rd = 0) :
    ∃ n n', nodeOf rawData hwNames r = some n ∧ nodeOf rawData' hwNames r = some n' ∧
      nodeScore (modeOf lbl) n < nodeScore (modeOf lbl) n' ∧
      nodeScore GMode.all n < nodeScore GMode.all n' ∧
      n.meaningfulScore ≤ n'.meaningfulScore := by
  have hrec : recordsOf rawData hwNames r ≠ [] := by
    intro he
    have hrr : reviewerRounds rawData hwNames r = [] := by
      rw [reviewerRounds, he]
      rfl
    rw [h] at hrr
    simp at hrr
  have hrec' : recordsOf rawData' hwNames r ≠ [] := by
    intro he
    have hrr : reviewerRounds rawData' hwNames r = [] := by
      rw [reviewerRounds, he]
      rfl
    rw [h'] at hrr
    simp at hrr
  have hmapfb : (rs1 ++ setFlag lbl rd :: rs2).map fbOf = (rs1 ++ rd :: rs2).map fbOf := by
    rw [List.map_append, List.map_append, List.map_cons, List.map_cons, fbOf_setFlag]
  have hfb1 : (finalizeNode (nodeAccOf rawData hwNames r)).feedbacks
      = (rs1 ++ rd :: rs2).map fbOf := by
    have e : (finalizeNode (nodeAccOf rawData hwNames r)).feedbacks
        = (reviewerRounds rawData hwNames r).map fbOf := rfl
    rw [e, h]
  have hfb2 : (finalizeNode (nodeAccOf rawData' hwNames r)).feedbacks
      = (rs1 ++ rd :: rs2).map fbOf := by
    have e : (finalizeNode (nodeAccOf rawData' hwNames r)).feedbacks
        = (reviewerRounds rawData' hwNames r).map fbOf := rfl
    rw [e, h', hmapfb]
  have htf : 0 < (((rs1 ++ rd :: rs2).map fbOf).filter (· ≠ "")).length := by
    have hm : fbOf rd ∈ ((rs1 ++ rd :: rs2).map fbOf).filter (· ≠ "") :=
      List.mem_filter.mpr ⟨List.mem_map_of_mem fbOf (by simp), by simpa using hfb⟩
    exact List.length_pos.mpr (List.ne_nil_of_mem hm)
  have htfQ : (0 : ℚ) < ((((rs1 ++ rd :: rs2).map fbOf).filter (· ≠ "")).length : ℚ) := by
    exact_mod_cast htf
  have hlc1 : ∀ b : GLabel, lcGet (finalizeNode (nodeAccOf rawData hwNames r)).labelCounts b
      = ((rs1 ++ rd :: rs2).map (contrib b)).sum := by
    intro b
    rw [← h]
    cases b <;> rfl
  have hlc2 : ∀ b : GLabel, lcGet (finalizeNode (nodeAccOf rawData' hwNames r)).labelCounts b
      = ((rs1 ++ rd :: rs2).map (contrib b)).sum + (if b = lbl then 1 else 0) := by
    intro b
    have e : lcGet (finalizeNode (nodeAccOf rawData' hwNames r)).labelCounts b
        = ((reviewerRounds rawData' hwNames r).map (contrib b)).sum := by
      cases b <;> rfl
    rw [e, h', List.map_append, List.map_append, List.map_cons, List.map_cons,
      List.sum_append, List.sum_append, List.sum_cons, List.sum_cons,
      contrib_setFlag b lbl rd hfb h0]
    ring
  refine ⟨finalizeNode (nodeAccOf rawData hwNames r),
          finalizeNode (nodeAccOf rawData' hwNames r), ?_, ?_, ?_, ?_, ?_⟩
  · rw [nodeOf, lookupA_nodesMap, if_neg hrec]
    rfl
  · rw [nodeOf, lookupA_nodesMap, if_neg hrec']
    rfl
  · rw [nodeScore_modeOf, nodeScore_modeOf, hfb1, hfb2, hlc1 lbl, hlc2 lbl, if_pos rfl,
      if_pos htf, if_pos htf]
    exact (div_lt_div_iff_of_pos_right htfQ).mpr (lt_add_one _)
  · rw [nodeScore_all_eq, nodeScore_all_eq, hfb1, hfb2, if_pos htf, if_pos htf]
    have ha1 : (finalizeNode (nodeAccOf rawData hwNames r)).labelCounts.relevance
        = ((rs1 ++ rd :: rs2).map (contrib .relevance)).sum := hlc1 .relevance
    have hb1 : (finalizeNode (nodeAccOf rawData hwNames r)).labelCounts.concreteness
        = ((rs1 ++ rd :: rs2).map (contrib .concreteness)).sum := hlc1 .concreteness
    have hc1 : (finalizeNode (nodeAccOf rawData hwNames r)).labelCounts.constructive
        = ((rs1 ++ rd :: rs2).map (contrib .constructive)).sum := hlc1 .constructive
    have ha2 : (finalizeNode (nodeAccOf rawData' hwNames r)).labelCounts.relevance
        = ((rs1 ++ rd :: rs2).map (contrib .relevance)).sum
          + (if GLabel.relevance = lbl then 1 else 0) := hlc2 .relevance
    have hb2 : (finalizeNode (nodeAccOf rawData' hwNames r)).labelCounts.concreteness
        = ((rs1 ++ rd :: rs2).map (contrib .concreteness)).sum
          + (if GLabel.concreteness = lbl then 1 else 0) := hlc2 .concreteness
    have hc2 : (finalizeNode (nodeAccOf rawData' hwNames r)).labelCounts.constructive
        = ((rs1 ++ rd :: rs2).map (contrib .constructive)).sum
          + (if GLabel.constructive = lbl then 1 else 0) := hlc2 .constructive
    rw [ha1, hb1, hc1, ha2, hb2, hc2, div_add_div_same, div_add_div_same,
      div_add_div_same, div_add_div_same]
    have hite : (if GLabel.relevance = lbl then (1 : ℚ) else 0)
        + (if GLabel.concreteness = lbl then (1 : ℚ) else 0)
        + (if GLabel.constructive = lbl then (1 : ℚ) else 0) = 1 := by
      cases lbl <;> simp
    refine (div_lt_div_iff_of_pos_right (by norm_num : (0:ℚ) < 3)).mpr ?_
    refine (div_lt_div_iff_of_pos_right htfQ).mpr ?_
    nlinarith [hite]
  · have hms1 : (finalizeNode (nodeAccOf rawData hwNames r)).meaningfulScore
        = min
            (if (((rs1 ++ rd :: rs2).map fbOf).filter (· ≠ "")).length > 0
             then ((rs1 ++ rd :: rs2).map roundScore).sum /
                  (((rs1 ++ rd :: rs2).map fbOf).filter (· ≠ "")).length
             else 0) 100 := by
      rw [← h]
      rfl
    have hsum' : ((rs1 ++ setFlag lbl rd :: rs2).map roundScore).sum
        = ((rs1 ++ rd :: rs2).map roundScore).sum + labelWeight lbl := by
      rw [List.map_append, List.map_append, List.map_cons, List.map_cons,
        List.sum_append, List.sum_append, List.sum_cons, List.sum_cons,
        roundScore_setFlag lbl rd hfb h0]
      ring
    have hms2 : (finalizeNode (nodeAccOf rawData' hwNames r)).meaningfulScore
        = min
            (if (((rs1 ++ rd :: rs2).map fbOf).filter (· ≠ "")).length > 0
             then (((rs1 ++ rd :: rs2).map roundScore).sum + labelWeight lbl) /
                  (((rs1 ++ rd :: rs2).map fbOf).filter (· ≠ "")).length
             else 0) 100 := by
      have e : (finalizeNode (nodeAccOf rawData' hwNames r)).meaningfulScore
          = min
              (if (((rs1 ++ setFlag lbl rd :: rs2).map fbOf).filter (· ≠ "")).length > 0
               then ((rs1 ++ setFlag lbl rd :: rs2).map roundScore).sum /
                    (((rs1 ++ setFlag lbl rd :: rs2).map fbOf).filter (· ≠ "")).length
               else 0) 100 := by
        rw [← h']
        rfl
      rw [e, hmapfb, hsum']
    rw [hms1, hms2]
    refine min_le_min ?_ le_rfl
    rw [if_pos htf, if_pos htf]
    exact (div_le_div_iff_of_pos_right htfQ).mpr (by linarith [labelWeight_pos lbl])


/-- C4 witness: the theorem applied to a one-reviewer input whose single
non-empty-feedback round has Relevance = 0, raised to 1. -/
theorem C4_witness :
    reviewerRounds c4Raw ["HW1"] "A" = [] ++ c4Round :: [] ∧
    reviewerRounds c4Raw' ["HW1"] "A" = [] ++ setFlag .relevance c4Round :: [] ∧
    fbOf c4Round ≠ "" ∧
    flagVal .relevance c4Round = 0 ∧
    (∃ n n', nodeOf c4Raw ["HW1"] "A" = some n ∧ nodeOf c4Raw' ["HW1"] "A" = some n' ∧
      nodeScore (modeOf .relevance) n < nodeScore (modeOf .relevance) n' ∧
      nodeScore GMode.all n < nodeScore GMode.all n' ∧
      n.meaningfulScore ≤ n'.meaningfulScore) := by
  have h1 : reviewerRounds c4Raw ["HW1"] "A" = [] ++ c4Round :: [] := rfl
  have h2 : reviewerRounds c4Raw' ["HW1"] "A" = [] ++ setFlag .relevance c4Round :: [] := rfl
  have h3 : fbOf c4Round ≠ "" := by decide
  have h4 : flagVal .relevance c4Round = 0 := rfl
  exact ⟨h1, h2, h3, h4,
    C4_label_rate_monotonicity c4Raw c4Raw' ["HW1"] "A" .relevance c4Round [] [] h1 h2 h3 h4⟩

/-! Closed form of the frequency counters of `calculateHwLabelFrequency`. -/

theorem countRound_eq (st : HwStats) (rd : Round) :
    countRound st rd =
      { total := st.total + (if hasAllFlags rd then 1 else 0),
        relevance := st.relevance +
          (if hasAllFlags rd && rd.Relevance = some 1 then 1 else 0),
        concreteness := st.concreteness +
          (if hasAllFlags rd && rd.Concreteness = some 1 then 1 else 0),
        constructive := st.constructive +
          (if hasAllFlags rd && rd.Constructive = some 1 then 1 else 0) } := by
  obtain ⟨t, r1, c1, s1⟩ := st
  rw [countRound]
  by_cases h : rd.Relevance ≠ none ∧ rd.Concreteness ≠ none ∧ rd.Constructive ≠ none
  · have hb : hasAllFlags rd = true := by
      simp only [hasAllFlags, Bool.and_eq_true, decide_eq_true_eq]
      tauto
    rw [if_pos h]
    simp [hb]
  · have hb : hasAllFlags rd = false := by
      simp only [hasAllFlags]
      simp only [not_and_or] at h
      rcases h with h | h | h <;> simp [h]
    rw [if_neg h]
    simp [hb]

theorem foldl_countRound (rds : List Round) (st : HwStats) :
    rds.foldl countRound st =
      { total := st.total + (rds.filter hasAllFlags).length,
        relevance := st.relevance +
          (rds.filter (fun rd => hasAllFlags rd && rd.Relevance = some 1)).length,
        concreteness := st.concreteness +
          (rds.filter (fun rd => hasAllFlags rd && rd.Concreteness = some 1)).length,
        constructive := st.constructive +
          (rds.filter (fun rd => hasAllFlags rd && rd.Constructive = some 1)).length } := by
  induction rds generalizing st with
  | nil => obtain ⟨t, r1, c1, s1⟩ := st; simp
  | cons rd rds ih =>
      rw [List.foldl_cons, countRound_eq, ih]
      obtain ⟨t, r1, c1, s1⟩ := st
      simp only [List.filter_cons, HwStats.mk.injEq]
      refine ⟨?_, ?_, ?_, ?_⟩ <;>
        · split_ifs <;>
            first
              | omega
              | (simp only [List.length_cons]; omega)


theorem foldl_hwStep (records : List Assignment) (st : HwStats) :
    records.foldl
        (fun st student =>
          match student.Round with
          | some rounds => rounds.foldl countRound st
          | none => st) st
      = { total := st.total + ((roundsOfRecords records).filter hasAllFlags).length,
          relevance := st.relevance + ((roundsOfRecords records).filter
            (fun rd => hasAllFlags rd && rd.Relevance = some 1)).length,
          concreteness := st.concreteness + ((roundsOfRecords records).filter
            (fun rd => hasAllFlags rd && rd.Concreteness = some 1)).length,
          constructive := st.constructive + ((roundsOfRecords records).filter
            (fun rd => hasAllFlags rd && rd.Constructive = some 1)).length } := by
  induction records generalizing st with
  | nil => obtain ⟨t, r1, c1, s1⟩ := st; simp [roundsOfRecords]
  | cons a recs ih =>
      rw [List.foldl_cons]
      rcases hR : a.Round with _ | rounds
      · simp only [hR]
        rw [ih]
        simp [roundsOfRecords, hR]
      · simp only [hR]
        rw [foldl_countRound, ih]
        obtain ⟨t, r1, c1, s1⟩ := st
        simp only [roundsOfRecords, List.flatMap_cons, hR, Option.getD_some,
          List.filter_append, List.length_append, HwStats.mk.injEq]
        refine ⟨?_, ?_, ?_, ?_⟩ <;> omega

theorem hwStatsOf_eq (records : List Assignment) :
    hwStatsOf records =
      { total := ((roundsOfRecords records).filter hasAllFlags).length,
        relevance := ((roundsOfRecords records).filter
          (fun rd => hasAllFlags rd && rd.Relevance = some 1)).length,
        concreteness := ((roundsOfRecords records).filter
          (fun rd => hasAllFlags rd && rd.Concreteness = some 1)).length,
        constructive := ((roundsOfRecords records).filter
          (fun rd => hasAllFlags rd && rd.Constructive = some 1)).length } := by
  rw [hwStatsOf, foldl_hwStep]
  simp

/-- C5 counterexample: on the claim's own scenario (one round with all three
flags 1, one round with only Relevance defined) the code returns
concreteness% = 100 and constructive% = 100 — not 0 as claimed — because the
fully-labelled round alone forms the denominator and carries all three
labels. -/
theorem C5_counterexample :
    calculateHwLabelFrequency c5Data =
      [("HW1", { relevance := 100, concreteness := 100, constructive := 100, total := 1 })] ∧
    ¬ ((lookupA (calculateHwLabelFrequency c5Data) "HW1").map HwFreq.concreteness = some 0) := by
  have h : calculateHwLabelFrequency c5Data =
      [("HW1", { relevance := 100, concreteness := 100, constructive := 100, total := 1 })] := by
    simp [calculateHwLabelFrequency, c5Data, hwStatsOf, countRound, c5Round1, c5Round2,
      toPercent]
  refine ⟨h, ?_⟩
  rw [h]
  simp [lookupA]

/-- C5 (amended): a round missing any one of the three flags is excluded from
`total` even if its present flags are 1; on the scenario input the result is
total = 1, relevance% = 100, concreteness% = 100, constructive% = 100; and
whenever `total` = 0 all three percentage fields are 0. -/
theorem C5_frequency :
    calculateHwLabelFrequency c5Data =
      [("HW1", { relevance := 100, concreteness := 100, constructive := 100, total := 1 })] ∧
    (∀ records : List Assignment,
      (hwStatsOf records).total = ((roundsOfRecords records).filter hasAllFlags).length) ∧
    (∀ data : RawData, ∀ kv ∈ calculateHwLabelFrequency data,
      kv.2.total = 0 →
        kv.2.relevance = 0 ∧ kv.2.concreteness = 0 ∧ kv.2.constructive = 0) := by
  refine ⟨?_, ?_, ?_⟩
  · simp [calculateHwLabelFrequency, c5Data, hwStatsOf, countRound, c5Round1, c5Round2,
      toPercent]
  · intro records
    rw [hwStatsOf_eq]
  · intro data kv hkv h0
    rw [calculateHwLabelFrequency] at hkv
    obtain ⟨kv', hmem, rfl⟩ := List.mem_map.mp hkv
    simp only [toPercent] at h0 ⊢
    split_ifs at h0 ⊢ with hp
    · simp at h0
      omega
    · simp

/-- C5 witness: the zero-total clause of the amended theorem applied to a
homework key with no records. -/
theorem C5_witness :
    ("HW2", ({ relevance := 0, concreteness := 0, constructive := 0, total := 0 } : HwFreq))
        ∈ calculateHwLabelFrequency c5Empty ∧
    (({ relevance := 0, concreteness := 0, constructive := 0, total := 0 } : HwFreq).relevance = 0 ∧
     ({ relevance := 0, concreteness := 0, constructive := 0, total := 0 } : HwFreq).concreteness = 0 ∧
     ({ relevance := 0, concreteness := 0, constructive := 0, total := 0 } : HwFreq).constructive = 0) := by
  have hmem :
      ("HW2", ({ relevance := 0, concreteness := 0, constructive := 0, total := 0 } : HwFreq))
        ∈ calculateHwLabelFrequency c5Empty := by
    simp [calculateHwLabelFrequency, c5Empty, hwStatsOf, toPercent]
  exact ⟨hmem, C5_frequency.2.2 c5Empty _ hmem rfl⟩


/-! Closed form of the reviewer statistics of `calculateReviewerLabelAverages`. -/

theorem foldl_rstats (rds : List Round) (s : RStats) :
    rds.foldl
        (fun s round =>
          match round.Label with
          | some label => { totalLabel := s.totalLabel + label, count := s.count + 1 }
          | none => s) s
      = { totalLabel := s.totalLabel + (rds.filterMap (fun rd => rd.Label)).sum,
          count := s.count + (rds.filterMap (fun rd => rd.Label)).length } := by
  induction rds generalizing s with
  | nil => obtain ⟨t, c⟩ := s; simp
  | cons rd rds ih =>
      rw [List.foldl_cons]
      rcases hl : rd.Label with _ | q
      · simp only [hl]
        rw [ih]
        simp [List.filterMap_cons, hl]
      · simp only [hl]
        rw [ih]
        obtain ⟨t, c⟩ := s
        simp only [List.filterMap_cons, hl, List.sum_cons, List.length_cons, RStats.mk.injEq]
        constructor
        · ring
        · omega

theorem labelsOfKey_cons (a : Assignment) (rest : List Assignment) (k : String) :
    labelsOfKey (a :: rest) k =
      (if normKey a.Reviewer = k then (a.Round.getD []).filterMap (fun rd => rd.Label) else [])
        ++ labelsOfKey rest k := by
  rw [labelsOfKey, labelsOfKey, List.filter_cons]
  by_cases hc : normKey a.Reviewer = k
  · simp [hc]
  · simp [hc]

theorem statsStep_fold_eff (assignments : List Assignment) (st : AList RStats) (k : String) :
    ((lookupA (assignments.foldl statsStep st) k).getD ⟨0, 0⟩).totalLabel
        = ((lookupA st k).getD ⟨0, 0⟩).totalLabel + (labelsOfKey assignments k).sum
      ∧ ((lookupA (assignments.foldl statsStep st) k).getD ⟨0, 0⟩).count
        = ((lookupA st k).getD ⟨0, 0⟩).count + (labelsOfKey assignments k).length := by
  induction assignments generalizing st with
  | nil => simp [labelsOfKey]
  | cons a rest ih =>
      rw [List.foldl_cons, labelsOfKey_cons]
      rcases hR : a.Round with _ | rounds
      · have hstep : statsStep st a = st := by simp [statsStep, hR]
        rw [hstep]
        simp only [hR, Option.getD_none, List.filterMap_nil, ite_self, List.nil_append]
        exact ih st
      · have hstep : statsStep st a
            = upsertA st (normKey a.Reviewer)
                { totalLabel := ((lookupA st (normKey a.Reviewer)).getD ⟨0, 0⟩).totalLabel
                    + (rounds.filterMap (fun rd => rd.Label)).sum,
                  count := ((lookupA st (normKey a.Reviewer)).getD ⟨0, 0⟩).count
                    + (rounds.filterMap (fun rd => rd.Label)).length } := by
          simp only [statsStep, hR]
          rw [foldl_rstats]
        rw [hstep]
        constructor
        · rw [(ih _).1, lookupA_upsertA]
          by_cases hk : normKey a.Reviewer = k
          · rw [if_pos hk, if_pos hk, hk]
            simp only [hR, Option.getD_some, Option.getD_some, List.sum_append]
            ring
          · rw [if_neg hk, if_neg hk]
            simp
        · rw [(ih _).2, lookupA_upsertA]
          by_cases hk : normKey a.Reviewer = k
          · rw [if_pos hk, if_pos hk, hk]
            simp only [hR, Option.getD_some, List.length_append]
            omega
          · rw [if_neg hk, if_neg hk]
            simp

theorem lookupAvg_eq (stats : AList RStats) (k : String) :
    lookupAvg stats k =
      if ((lookupA stats k).getD ⟨0, 0⟩).count > 0
      then some (((lookupA stats k).getD ⟨0, 0⟩).totalLabel /
        (((lookupA stats k).getD ⟨0, 0⟩).count : ℚ))
      else none := by
  rw [lookupAvg]
  rcases h : lookupA stats k with _ | s0
  · simp
  · simp

/-- C6: after `calculateReviewerLabelAverages`, a record whose (trimmed,
upper-cased) reviewer key has no round with a parseable Label carries the NaN
sentinel (`none`), and a record whose reviewer has at least one parseable
Label carries the sum of that reviewer's parseable Labels divided by their
count. -/
theorem C6_average_sentinel (assignments : List Assignment) :
    ∀ out ∈ calculateReviewerLabelAverages assignments,
      (labelsOfKey assignments (normKey out.Reviewer) = [] → out.avgLabel = none) ∧
      (labelsOfKey assignments (normKey out.Reviewer) ≠ [] →
        out.avgLabel = some ((labelsOfKey assignments (normKey out.Reviewer)).sum /
          ((labelsOfKey assignments (normKey out.Reviewer)).length : ℚ))) := by
  intro out hout
  simp only [calculateReviewerLabelAverages] at hout
  obtain ⟨a, ha, rfl⟩ := List.mem_map.mp hout
  have hchar := statsStep_fold_eff assignments [] (normKey a.Reviewer)
  have hT : ((lookupA (assignments.foldl statsStep []) (normKey a.Reviewer)).getD
      ⟨0, 0⟩).totalLabel = (labelsOfKey assignments (normKey a.Reviewer)).sum := by
    rw [hchar.1]
    simp [lookupA]
  have hC : ((lookupA (assignments.foldl statsStep []) (normKey a.Reviewer)).getD
      ⟨0, 0⟩).count = (labelsOfKey assignments (normKey a.Reviewer)).length := by
    rw [hchar.2]
    simp [lookupA]
  constructor
  · intro h0
    show lookupAvg (assignments.foldl statsStep []) (normKey a.Reviewer) = none
    rw [lookupAvg_eq, hC, h0]
    simp
  · intro hne
    show lookupAvg (assignments.foldl statsStep []) (normKey a.Reviewer)
      = some ((labelsOfKey assignments (normKey a.Reviewer)).sum /
          ((labelsOfKey assignments (normKey a.Reviewer)).length : ℚ))
    rw [lookupAvg_eq, hC, hT, if_pos (List.length_pos.mpr hne)]

/-- C6 witness: the theorem applied to a record whose reviewer key "A"
(written "a " in the data) has exactly one parseable label. -/
theorem C6_witness :
    c6Out ∈ calculateReviewerLabelAverages c6Assignments ∧
    labelsOfKey c6Assignments (normKey c6Out.Reviewer) ≠ [] ∧
    c6Out.avgLabel = some ((labelsOfKey c6Assignments (normKey c6Out.Reviewer)).sum /
      ((labelsOfKey c6Assignments (normKey c6Out.Reviewer)).length : ℚ)) := by
  have h1 : normKey "a " = "A" := by decide
  have h2 : normKey "C" = "C" := by decide
  have h3 : ("A" : String) ≠ "C" := by decide
  have hmem : c6Out ∈ calculateReviewerLabelAverages c6Assignments := by
    simp [calculateReviewerLabelAverages, c6Assignments, statsStep, h1, h2, h3,
      lookupA, upsertA, lookupAvg, c6Out]
  have hne : labelsOfKey c6Assignments (normKey c6Out.Reviewer) ≠ [] := by decide
  exact ⟨hmem, hne, (C6_average_sentinel c6Assignments c6Out hmem).2 hne⟩


/-! The quality score of `getAvgLabelQuality`. -/

theorem foldl_add_eq_sum {α : Type} (f : α → ℚ) (l : List α) (init : ℚ) :
    l.foldl (fun sum r => sum + f r) init = init + (l.map f).sum := by
  induction l generalizing init with
  | nil => simp
  | cons x xs ih => rw [List.foldl_cons, ih, List.map_cons, List.sum_cons, add_assoc]

/-- C7: `getAvgLabelQuality` always returns a value in [0, 1]; it returns 0
when no round has non-empty trimmed Feedback, and otherwise the clamped mean
of the numeric labels (non-numeric contributing 0) over the valid rounds. -/
theorem C7_avg_label_quality (rounds : List Round) :
    (0 ≤ getAvgLabelQuality rounds ∧ getAvgLabelQuality rounds ≤ 1) ∧
    ((∀ rd ∈ rounds, jsTrim rd.Feedback = "") → getAvgLabelQuality rounds = 0) ∧
    (validFeedbacks rounds ≠ [] →
      getAvgLabelQuality rounds =
        max 0 (min 1 (((validFeedbacks rounds).map (fun r => r.Label.getD 0)).sum /
          ((validFeedbacks rounds).length : ℚ)))) := by
  have hbounds : 0 ≤ getAvgLabelQuality rounds ∧ getAvgLabelQuality rounds ≤ 1 := by
    simp only [getAvgLabelQuality]
    by_cases h1 : rounds.length = 0
    · rw [if_pos h1]
      norm_num
    · rw [if_neg h1]
      by_cases h2 : (validFeedbacks rounds).length = 0
      · rw [if_pos h2]
        norm_num
      · rw [if_neg h2]
        exact ⟨le_max_left _ _, max_le (by norm_num) (min_le_left _ _)⟩
  refine ⟨hbounds, ?_, ?_⟩
  · intro hall
    have hv : validFeedbacks rounds = [] := by
      rw [validFeedbacks, List.filter_eq_nil_iff]
      intro rd hrd
      simp [hall rd hrd]
    simp only [getAvgLabelQuality]
    by_cases h1 : rounds.length = 0
    · rw [if_pos h1]
    · rw [if_neg h1, if_pos (show (validFeedbacks rounds).length = 0 by rw [hv]; rfl)]
  · intro hne
    have hlen0 : ¬ rounds.length = 0 := by
      intro h0
      exact hne (by rw [validFeedbacks, List.length_eq_zero.mp h0]; rfl)
    have hvlen : ¬ (validFeedbacks rounds).length = 0 := by
      simpa [List.length_eq_zero] using hne
    simp only [getAvgLabelQuality]
    rw [if_neg hlen0, if_neg hvlen, foldl_add_eq_sum, zero_add]

/-- C7 witness: the theorem applied to two rounds of which one has valid
feedback, with an out-of-range label mean that gets clamped to 1. -/
theorem C7_witness :
    (0 ≤ getAvgLabelQuality c7Rounds ∧ getAvgLabelQuality c7Rounds ≤ 1) ∧
    validFeedbacks c7Rounds ≠ [] ∧
    getAvgLabelQuality c7Rounds =
      max 0 (min 1 (((validFeedbacks c7Rounds).map (fun r => r.Label.getD 0)).sum /
        ((validFeedbacks c7Rounds).length : ℚ))) := by
  have hne : validFeedbacks c7Rounds ≠ [] := by decide
  exact ⟨(C7_avg_label_quality c7Rounds).1, hne, (C7_avg_label_quality c7Rounds).2.2 hne⟩

/-! Non-array rounds behave exactly like empty round arrays. -/

theorem lookupA_map_value {β γ : Type} (g : β → γ) (l : AList β) (k : String) :
    lookupA (l.map (fun kv => (kv.1, g kv.2))) k = (lookupA l k).map g := by
  induction l with
  | nil => simp [lookupA]
  | cons hd tl ih =>
      obtain ⟨k', v⟩ := hd
      by_cases h : k' = k <;> simp [lookupA, h, ih]

theorem selectedItems_normalize (rawData : RawData) (hwNames : List String) :
    selectedItems (normalizeRaw rawData) hwNames
      = (selectedItems rawData hwNames).map (fun it => (it.1, normalizeRound it.2)) := by
  induction hwNames with
  | nil => rfl
  | cons hw hws ih =>
      simp only [selectedItems, List.flatMap_cons, List.map_append] at ih ⊢
      rw [ih]
      congr 1
      rw [normalizeRaw, lookupA_map_value]
      cases h : lookupA rawData hw with
      | none => simp
      | some recs => simp [List.map_map]

theorem nodesMapOf_normalize (rawData : RawData) (hwNames : List String) :
    nodesMapOf (normalizeRaw rawData) hwNames = nodesMapOf rawData hwNames := by
  rw [nodesMapOf_eq_foldl, nodesMapOf_eq_foldl, selectedItems_normalize, List.foldl_map]
  rfl

theorem labelsOfKey_normalize (assignments : List Assignment) (k : String) :
    labelsOfKey (assignments.map normalizeRound) k = labelsOfKey assignments k := by
  induction assignments with
  | nil => rfl
  | cons a rest ih =>
      rw [List.map_cons, labelsOfKey_cons, labelsOfKey_cons, ih]
      rfl

/-- C8: a record whose `Round` is not an array is handled without failure and
contributes zero rounds everywhere: replacing every non-array `Round` by an
explicit empty round list changes nothing — `processReviewerData` returns the
same nodes and links, and `calculateReviewerLabelAverages` assigns every
record the same `avgLabel`. -/
theorem C8_non_array_round (rawData : RawData) (mode : String) (hwNames : List String)
    (assignments : List Assignment) :
    processReviewerData (normalizeRaw rawData) mode hwNames
        = processReviewerData rawData mode hwNames ∧
    (calculateReviewerLabelAverages (assignments.map normalizeRound)).map
        (fun out => out.avgLabel)
      = (calculateReviewerLabelAverages assignments).map (fun out => out.avgLabel) := by
  constructor
  · rw [processReviewerData, processReviewerData, nodesMapOf_normalize]
  · have havg : ∀ k, lookupAvg ((assignments.map normalizeRound).foldl statsStep []) k
        = lookupAvg (assignments.foldl statsStep []) k := by
      intro k
      have h1 := statsStep_fold_eff (assignments.map normalizeRound) [] k
      have h2 := statsStep_fold_eff assignments [] k
      rw [lookupAvg_eq, lookupAvg_eq, h1.1, h1.2, h2.1, h2.2, labelsOfKey_normalize]
    simp only [calculateReviewerLabelAverages, List.map_map]
    apply List.map_congr_left
    intro a _
    simp only [Function.comp_apply]
    exact havg (normKey a.Reviewer)

end ReviewGraph
